import Mathlib

/-!
# PlugnPlay grid engine — verification of the specification's claims

Shallow embedding of the PlugnPlay browser grid engine (`src/script.js`,
canonical first variant, and its near-duplicate `src/unnamed/part_000`):
the priority event bus, the tile registry (array variant at
`script.js:16-21` and Map variant at `script.js:322-326`), the two-layer
grid engine (`addEntity`, `removeEntity`, `moveEntity`) and the plugin
loader (`fetchPluginList`, `loadAll`).

Modelling conventions:
* JS numbers used as grid coordinates/deltas are embedded as `Int`;
  entity ids (`nextId`, monotonically assigned, never recycled) as `Nat`.
* A JS `Map` keyed by id is embedded as a function `Nat → Option Entity`;
  the `Tiles` `Map` of the second variant, whose insertion order is
  observable through enumeration, as an association list.
* A grid cell slot holds a *reference* to an entity object.  The engine
  reads exactly two things through a cell slot: the occupant's identity
  (`cell.ground === e`, which for entities of one engine coincides with
  equality of their unique `id`s) and its immutable `solid` flag
  (`targetCell.ground?.solid`).  A slot is therefore embedded as
  `Option CellRef` carrying that id and flag.
* `EventBus.emit` calls are side effects on handlers outside the engine
  state; each engine operation returns the list of events it emits, in
  emission order, instead.
* JS strings manipulated by the plugin-list parser are embedded as
  `List Char` so that `split`, `trim` and `startsWith` are structurally
  recursive and kernel-evaluable.
-/

/-! ## EventBus (script.js:4-13, part_000:4-13)

`on(type, fn, priority = 0)` pushes `{fn, priority}` and re-sorts the
listener list with the comparator `(a, b) => b.priority - a.priority`,
i.e. descending by priority; `Array.prototype.sort` is stable
(ECMA-262), embedded here by `List.insertionSort`, which is stable.
`emit(type, data)` runs `fn(data)` over the listener list front to back
with no `try`/`catch`.

A listener entry is one `{fn, priority}` object; distinct `on` calls
push distinct objects even for the same function, so an entry's identity
is the subscription event itself.  `Entry.tag` records that identity as
the subscription's sequence number; `Entry.fn` identifies the handler
function.  Listener lists are per event name; one list is modelled. -/

structure Entry where
  tag : Nat
  fn : Nat
  priority : Int
deriving DecidableEq

/-- The sort order produced by the comparator `b.priority - a.priority`:
`a` may stand before `b` iff `a`'s priority is not below `b`'s. -/
def entryLE (a b : Entry) : Prop := b.priority ≤ a.priority

instance : DecidableRel entryLE := fun a b =>
  inferInstanceAs (Decidable (b.priority ≤ a.priority))

/-- Embedding of `bus.on(type, fn, priority)`: push the new entry, then stable-sort
descending by priority (script.js:6-9). -/
def busOn (l : List Entry) (e : Entry) : List Entry :=
  List.insertionSort entryLE (l ++ [e])

/-- Tag each subscription request `(fn, priority)` with its sequence
number: the identity of the `{fn, priority}` object pushed by `on`. -/
def tagEntries (subs : List (Nat × Int)) : List Entry :=
  subs.enum.map fun p => ⟨p.1, p.2.1, p.2.2⟩

/-- The listener list after a sequence of `on` calls on a fresh bus. -/
def busSubscribeAll (subs : List (Nat × Int)) : List Entry :=
  (tagEntries subs).foldl busOn []

/-- Embedding of `bus.emit(type, data)` (script.js:10-12): run each listener's `fn`
front to back.  There is no `try`/`catch`: a throwing handler aborts the
loop and the exception propagates out of `emit`.  `throws f` says
whether handler `f` throws; the result is the list of handlers actually
invoked, in order, and whether an exception escaped `emit`. -/
def busEmitRun (throws : Nat → Bool) : List Entry → List Nat × Bool
  | [] => ([], false)
  | e :: rest =>
    if throws e.fn then ([e.fn], true)
    else
      let r := busEmitRun throws rest
      (e.fn :: r.1, r.2)

/-- The invocation-order contract of the claim: earlier-invoked entries
have strictly higher priority, or equal priority and an earlier
subscription. -/
def entryBefore (a b : Entry) : Prop :=
  b.priority < a.priority ∨ (a.priority = b.priority ∧ a.tag < b.tag)

/-- Characterisation of where `push`-then-stable-sort places the new
entry when the list is already sorted: after every entry of priority
not below its own (used only in proofs). -/
def insertTail (e : Entry) : List Entry → List Entry
  | [] => [e]
  | y :: ys => if entryLE y e then y :: insertTail e ys else e :: y :: ys

/-! ## TileRegistry

Array variant (script.js:16-21): `Tiles.push(tile)`, no duplicate
check.  Map variant (script.js:322-326): `Tiles.set(tile.id,
Object.freeze(tile))` — `Map.set` on a present key replaces the value
in place, keeping the original insertion position; on an absent key it
appends.  Enumeration order is the list order. -/

structure Tile where
  id : String
  name : String
  color : String
  solid : Bool
deriving DecidableEq

/-- Embedding of `registerTile`, array variant (script.js:18-21). -/
def registerTile (tiles : List Tile) (t : Tile) : List Tile :=
  tiles ++ [t]

/-- JS `Map.prototype.set` on an association list: replace in place if
the key is present, else append. -/
def mapSet (k : String) (v : Tile) : List (String × Tile) → List (String × Tile)
  | [] => [(k, v)]
  | (k', v') :: rest =>
    if k' = k then (k, v) :: rest else (k', v') :: mapSet k v rest

/-- Embedding of `registerTile`, Map variant (script.js:324-326).
`Object.freeze` has no observable effect in a mutation-free model. -/
def registerTileMap (m : List (String × Tile)) (t : Tile) : List (String × Tile) :=
  mapSet t.id t m

/-- JS `Map.prototype.get`. -/
def mapLookup (k : String) : List (String × Tile) → Option Tile
  | [] => none
  | (k', v') :: rest => if k' = k then some v' else mapLookup k rest

/-- JS `Map.prototype.keys()` in insertion order. -/
def mapKeys (m : List (String × Tile)) : List String :=
  m.map Prod.fst

/-! ## GridEngine (script.js:28-127, part_000:24-100) -/

/-- The attribute record passed to `addEntity`.  The engine itself reads
only `solid`; `locked` is carried to state the claims about locked
occupants (the code never reads it). -/
structure EntityData where
  solid : Bool
  locked : Bool
deriving DecidableEq

/-- An entity object `{ id, x, y, ...data }` (script.js:55). -/
structure Entity where
  id : Nat
  x : Int
  y : Int
  data : EntityData
deriving DecidableEq

/-- What the engine reads through a cell-slot reference: the occupant's
unique id (for `===` identity tests) and its `solid` flag. -/
structure CellRef where
  id : Nat
  solid : Bool
deriving DecidableEq

inductive EngineEvent where
  | entityMoved (id : Nat)
  | entityBlocked (id : Nat)
  | afterTick
deriving DecidableEq

structure GridEngine where
  w : Int
  h : Int
  ground : Int → Int → Option CellRef
  actor : Int → Int → Option CellRef
  entities : Nat → Option Entity
  nextId : Nat

/-- Embedding of `new GridEngine(w, h, tileSize)` (script.js:29-43); `tileSize` only
feeds the renderer and is omitted. -/
def GridEngine.new (w h : Int) : GridEngine :=
  ⟨w, h, fun _ _ => none, fun _ _ => none, fun _ => none, 1⟩

/-- Pointwise update of one cell layer. -/
def setSlot (f : Int → Int → Option CellRef) (x y : Int) (v : Option CellRef) :
    Int → Int → Option CellRef :=
  fun a b => if a = x ∧ b = y then v else f a b

/-- Embedding of `Map.set` / `Map.delete` on the entity table. -/
def setEnt (f : Nat → Option Entity) (id : Nat) (v : Option Entity) :
    Nat → Option Entity :=
  fun k => if k = id then v else f k

/-- Does a cell slot reference the entity with this id
(`cell.ground === e` / `cell.actor === e`)? -/
def refsId (c : Option CellRef) (id : Nat) : Bool :=
  match c with
  | some r => r.id = id
  | none => false

/-- The check-and-clear step `if (cell.X === e) cell.X = null` performed
on one layer by `removeEntity` (script.js:76-77) and on the actor layer
by `moveEntity` (script.js:101-102): clear the slot at `(x, y)` iff it
references the entity with id `eid`. -/
def clearSlot (F : Int → Int → Option CellRef) (x y : Int) (eid : Nat) :
    Int → Int → Option CellRef :=
  if refsId (F x y) eid then setSlot F x y none else F

/-- Embedding of `addEntity(data, x, y)` (script.js:51-68): out-of-bounds returns
`null`; otherwise assign `nextId++`, insert `{id, x, y, ...data}` into
the entity table, and set the cell's ground slot if `e.solid`, else the
actor slot — with no occupancy, solidity or locked check on the slot's
previous content. -/
def GridEngine.addEntity (g : GridEngine) (data : EntityData) (x y : Int) :
    Option Nat × GridEngine :=
  if x < 0 ∨ y < 0 ∨ x ≥ g.w ∨ y ≥ g.h then (none, g)
  else
    let id := g.nextId
    let e : Entity := ⟨id, x, y, data⟩
    let ents := setEnt g.entities id (some e)
    if data.solid then
      (some id,
        { g with
          entities := ents
          ground := setSlot g.ground x y (some ⟨id, data.solid⟩)
          nextId := id + 1 })
    else
      (some id,
        { g with
          entities := ents
          actor := setSlot g.actor x y (some ⟨id, data.solid⟩)
          nextId := id + 1 })

/-- Embedding of `removeEntity(id)` (script.js:71-80): no-op if the id is unknown;
otherwise clear whichever slot of the cell at the entity's own `(x,y)`
references it (`===`), and delete it from the table. -/
def GridEngine.removeEntity (g : GridEngine) (id : Nat) : GridEngine :=
  match g.entities id with
  | none => g
  | some e =>
    { g with
      ground := clearSlot g.ground e.x e.y e.id
      actor := clearSlot g.actor e.x e.y e.id
      entities := setEnt g.entities id none }

/-- Embedding of `moveEntity(id, dx, dy)` (script.js:83-111, the engine's `moveActor`
operation): unknown id or out-of-bounds target return `false` silently;
a target cell with solid ground emits `entityBlocked` (with the entity
as payload) and returns `false`; otherwise the actor slot of the old
cell is cleared (if it references the entity), `(x,y)` is updated, the
target's actor slot is occupied, `entityMoved` is emitted and `true`
returned.  The result carries the emitted events in order.
(`part_000:68-88` is identical except that its blocked branch returns
`false` without emitting `entityBlocked`; per spec §9 that variant's
divergence is superseded by this canonical one.) -/
def GridEngine.moveEntity (g : GridEngine) (id : Nat) (dx dy : Int) :
    Bool × GridEngine × List EngineEvent :=
  match g.entities id with
  | none => (false, g, [])
  | some e =>
    let nx := e.x + dx
    let ny := e.y + dy
    if nx < 0 ∨ ny < 0 ∨ nx ≥ g.w ∨ ny ≥ g.h then (false, g, [])
    else if (g.ground nx ny).elim false (·.solid) then
      (false, g, [.entityBlocked id])
    else
      let actor2 := setSlot (clearSlot g.actor e.x e.y e.id) nx ny (some ⟨e.id, e.data.solid⟩)
      (true,
        { g with
          actor := actor2
          entities := setEnt g.entities id (some { e with x := nx, y := ny }) },
        [.entityMoved id])

/-! ## Grid/entity-table consistency (spec §3, §8; claim C1) -/

/-- Forward direction: every entity referenced by a grid cell is present
in the entity table under the same id. -/
def gridToTable (g : GridEngine) : Prop :=
  ∀ x y r, (g.ground x y = some r ∨ g.actor x y = some r) →
    ∃ e, g.entities r.id = some e

/-- Backward direction: every entity in the table is referenced by
exactly the cell and layer matching its own `(x,y)` — its own layer slot
of its own cell references it, and no other cell-layer slot does. -/
def tableToGrid (g : GridEngine) : Prop :=
  ∀ id e, g.entities id = some e →
    cond e.data.solid (refsId (g.ground e.x e.y) id) (refsId (g.actor e.x e.y) id) = true ∧
    cond e.data.solid (refsId (g.actor e.x e.y) id) (refsId (g.ground e.x e.y) id) = false ∧
    ∀ x y, ¬(x = e.x ∧ y = e.y) →
      refsId (g.ground x y) id = false ∧ refsId (g.actor x y) id = false

/-- Well-formedness of the table: entries are keyed by their own id and
ids stay below the monotone `nextId` (true of every reachable state). -/
def idsBounded (g : GridEngine) : Prop :=
  ∀ id e, g.entities id = some e → e.id = id ∧ id < g.nextId

/-- Bidirectional grid/entity-table consistency, together with id
well-formedness. -/
def consistent (g : GridEngine) : Prop :=
  idsBounded g ∧ gridToTable g ∧ tableToGrid g

/-! ## PluginLoader (script.js:141-178, part_000:114-147) -/

/-- JS `text.split("\x7bnewline\x7d")` on a character list. -/
def jsSplitNl : List Char → List (List Char)
  | [] => [[]]
  | c :: cs =>
    let r := jsSplitNl cs
    if c = '\n' then [] :: r
    else
      match r with
      | [] => [[c]]
      | cur :: rest => (c :: cur) :: rest

/-- JS `String.prototype.trim`: drop whitespace from both ends. -/
def jsTrim (s : List Char) : List Char :=
  ((s.dropWhile Char.isWhitespace).reverse.dropWhile Char.isWhitespace).reverse

/-- JS `l.startsWith("#")`: the empty string does not start with `#`;
otherwise compare the first character. -/
def startsHash : List Char → Bool
  | [] => false
  | c :: _ => c == '#'

/-- Embedding of `fetchPluginList` (script.js:148-156): on a successful fetch of
`text`, `text.split("\n").map(l => l.trim()).filter(l => l &&
!l.startsWith("#"))`; a fetch failure (`resp = none`) is caught and
yields `[]`. -/
def fetchPluginList (resp : Option (List Char)) : List (List Char) :=
  match resp with
  | none => []
  | some text =>
    ((jsSplitNl text).map jsTrim).filter fun l => !l.isEmpty && !startsHash l

/-- Modelled from the spec's words for comparison ("skipping blank lines
and comment lines (lines whose first non-whitespace character is
`#`)"): keep a raw line iff it is non-blank after trimming and its first
non-whitespace character is not `#`. -/
def specLineKeep (l : List Char) : Bool :=
  !(jsTrim l).isEmpty &&
    !((l.dropWhile Char.isWhitespace).head?.elim false (· == '#'))

/-- The observable outcome of one `loadAll` call: which plugin files
`loadPlugin` is invoked on (in list order), and the writes the method
issues to the external store. -/
structure LoadAllResult where
  loaded : List (List Char)
  storeWrites : List (List (List Char))
deriving DecidableEq

/-- Embedding of `loadAll(saved = [])` (script.js:171-177): for each fetched file,
skip it iff `saved.length && !saved.includes(f)`; the method body
contains no store write. -/
def loadAll (files saved : List (List Char)) : LoadAllResult :=
  ⟨files.filter fun f => !(saved.length != 0 && !saved.contains f), []⟩

/-! ## Basic lemmas about state updates -/

theorem setSlot_same (f : Int → Int → Option CellRef) (x y : Int) (v : Option CellRef) :
    setSlot f x y v x y = v := by
  simp [setSlot]

theorem setSlot_ne (f : Int → Int → Option CellRef) (x y : Int) (v : Option CellRef)
    (a b : Int) (h : ¬(a = x ∧ b = y)) : setSlot f x y v a b = f a b := by
  simp [setSlot, h]

theorem setEnt_same (f : Nat → Option Entity) (id : Nat) (v : Option Entity) :
    setEnt f id v id = v := by
  simp [setEnt]

theorem setEnt_ne (f : Nat → Option Entity) (id : Nat) (v : Option Entity)
    (k : Nat) (h : k ≠ id) : setEnt f id v k = f k := by
  simp [setEnt, h]

theorem refsId_none_eq (id : Nat) : refsId none id = false := rfl

theorem refsId_some_eq (r : CellRef) (id : Nat) : refsId (some r) id = decide (r.id = id) := rfl

theorem refsId_true_iff (c : Option CellRef) (id : Nat) :
    refsId c id = true ↔ ∃ r, c = some r ∧ r.id = id := by
  cases c with
  | none => simp [refsId]
  | some r => simp [refsId]

theorem refsId_false_iff (c : Option CellRef) (id : Nat) :
    refsId c id = false ↔ ∀ r, c = some r → r.id ≠ id := by
  cases c with
  | none => simp [refsId]
  | some r => simp [refsId]

theorem clearSlot_sub (F : Int → Int → Option CellRef) (x y : Int) (eid : Nat)
    (a b : Int) (r : CellRef) (h : clearSlot F x y eid a b = some r) :
    F a b = some r := by
  unfold clearSlot at h
  by_cases hr : refsId (F x y) eid = true
  · rw [if_pos hr] at h
    by_cases hab : a = x ∧ b = y
    · rw [setSlot, if_pos hab] at h; cases h
    · rwa [setSlot_ne _ _ _ _ _ _ hab] at h
  · rwa [if_neg hr] at h

theorem clearSlot_own (F : Int → Int → Option CellRef) (x y : Int) (eid : Nat) :
    refsId (clearSlot F x y eid x y) eid = false := by
  unfold clearSlot
  by_cases hr : refsId (F x y) eid = true
  · rw [if_pos hr, setSlot_same, refsId_none_eq]
  · rw [if_neg hr]
    exact Bool.not_eq_true _ ▸ hr

theorem clearSlot_other_id (F : Int → Int → Option CellRef) (x y : Int) (eid : Nat)
    (a b : Int) (id' : Nat) (h : id' ≠ eid) :
    refsId (clearSlot F x y eid a b) id' = refsId (F a b) id' := by
  unfold clearSlot
  by_cases hr : refsId (F x y) eid = true
  · rw [if_pos hr]
    by_cases hab : a = x ∧ b = y
    · obtain ⟨r, hFr, hrid⟩ := (refsId_true_iff _ _).mp hr
      rw [setSlot, if_pos hab, hab.1, hab.2, hFr, refsId_none_eq, refsId_some_eq]
      simp [hrid, Ne.symm h]
    · rw [setSlot_ne _ _ _ _ _ _ hab]
  · rw [if_neg hr]

theorem clearSlot_not_own_cell (F : Int → Int → Option CellRef) (x y : Int) (eid : Nat)
    (a b : Int) (h : ¬(a = x ∧ b = y)) :
    clearSlot F x y eid a b = F a b := by
  unfold clearSlot
  by_cases hr : refsId (F x y) eid = true
  · rw [if_pos hr, setSlot_ne _ _ _ _ _ _ h]
  · rw [if_neg hr]

/-! ## C10: moveEntity on an unknown id -/

/-- C10: calling `moveEntity` with an id that is not present in the
entity table returns `false`, publishes no event, and leaves the grid
and entity table completely unchanged (script.js:84-85). -/
theorem moveEntity_unknown_id (g : GridEngine) (id : Nat) (dx dy : Int)
    (h : g.entities id = none) :
    g.moveEntity id dx dy = (false, g, []) := by
  unfold GridEngine.moveEntity
  rw [h]

/-- Witness for C10 at a concrete input: id 5 on a fresh 2×2 engine. -/
theorem moveEntity_unknown_id_w :
    (GridEngine.new 2 2).entities 5 = none ∧
    (GridEngine.new 2 2).moveEntity 5 1 0 = (false, GridEngine.new 2 2, []) :=
  ⟨rfl, moveEntity_unknown_id (GridEngine.new 2 2) 5 1 0 rfl⟩

/-! ## C9: addEntity performs no occupancy check for non-solid entities -/

/-- C9: for every in-bounds `(x,y)` and every attribute record with a
falsy `solid` flag, `addEntity` succeeds and places the new entity in
the cell's actor layer regardless of that cell's ground occupant — the
ground layer is left entirely unchanged and no solidity or occupancy
check is performed (script.js:51-68). -/
theorem addEntity_nonsolid_actor_layer (g : GridEngine) (data : EntityData) (x y : Int)
    (hx0 : 0 ≤ x) (hxw : x < g.w) (hy0 : 0 ≤ y) (hyh : y < g.h)
    (hs : data.solid = false) :
    (g.addEntity data x y).1 = some g.nextId ∧
    (g.addEntity data x y).2.actor x y = some ⟨g.nextId, false⟩ ∧
    (g.addEntity data x y).2.ground = g.ground ∧
    (g.addEntity data x y).2.entities g.nextId = some ⟨g.nextId, x, y, data⟩ := by
  have hb : ¬(x < 0 ∨ y < 0 ∨ x ≥ g.w ∨ y ≥ g.h) := by omega
  unfold GridEngine.addEntity
  rw [if_neg hb]
  simp only [hs, Bool.false_eq_true, if_false]
  refine ⟨trivial, ?_, trivial, ?_⟩
  · rw [setSlot_same]
  · rw [setEnt_same]

/-- Witness for C9: on a 2×2 engine whose cell `(0,0)` holds a solid
ground occupant, a non-solid entity is still placed at `(0,0)`, into the
actor layer, with the ground untouched. -/
theorem addEntity_nonsolid_actor_layer_w :
    (((GridEngine.new 2 2).addEntity ⟨true, false⟩ 0 0).2.ground 0 0 = some ⟨1, true⟩) ∧
    ((((GridEngine.new 2 2).addEntity ⟨true, false⟩ 0 0).2.addEntity ⟨false, false⟩ 0 0).1
      = some 2 ∧
     (((GridEngine.new 2 2).addEntity ⟨true, false⟩ 0 0).2.addEntity ⟨false, false⟩ 0 0).2.actor 0 0
      = some ⟨2, false⟩ ∧
     (((GridEngine.new 2 2).addEntity ⟨true, false⟩ 0 0).2.addEntity ⟨false, false⟩ 0 0).2.ground
      = ((GridEngine.new 2 2).addEntity ⟨true, false⟩ 0 0).2.ground ∧
     (((GridEngine.new 2 2).addEntity ⟨true, false⟩ 0 0).2.addEntity ⟨false, false⟩ 0 0).2.entities 2
      = some ⟨2, 0, 0, ⟨false, false⟩⟩) :=
  ⟨by decide,
   addEntity_nonsolid_actor_layer ((GridEngine.new 2 2).addEntity ⟨true, false⟩ 0 0).2
     ⟨false, false⟩ 0 0 (by decide) (by decide) (by decide) (by decide) rfl⟩

/-! ## C2: moveEntity failure modes -/

/-- C2: for an existing entity, `moveEntity` with an out-of-bounds
target returns `false`, leaves the whole engine state unchanged and
publishes no event; with an in-bounds target whose ground occupant is
solid it publishes `entityBlocked` (with the entity as payload) and
returns `false`, again leaving the state unchanged (script.js:83-111).
The duplicate in `part_000:68-88` omits the `entityBlocked` emission;
spec §9 declares the canonical `script.js` behaviour authoritative. -/
theorem moveEntity_oob_and_blocked (g : GridEngine) (id : Nat) (e : Entity) (dx dy : Int)
    (he : g.entities id = some e) :
    ((e.x + dx < 0 ∨ e.y + dy < 0 ∨ e.x + dx ≥ g.w ∨ e.y + dy ≥ g.h) →
      g.moveEntity id dx dy = (false, g, [])) ∧
    (¬(e.x + dx < 0 ∨ e.y + dy < 0 ∨ e.x + dx ≥ g.w ∨ e.y + dy ≥ g.h) →
      (g.ground (e.x + dx) (e.y + dy)).elim false (·.solid) = true →
      g.moveEntity id dx dy = (false, g, [.entityBlocked id])) := by
  constructor
  · intro hoob
    unfold GridEngine.moveEntity
    rw [he]
    simp only [if_pos hoob]
  · intro hin hsolid
    unfold GridEngine.moveEntity
    rw [he]
    simp only [if_neg hin, hsolid, if_true]

/-- Witness for C2: a 3×3 engine with a solid ground entity at `(1,0)`
and an actor at `(0,0)`; moving the actor left is out of bounds and
silent, moving it right is blocked and publishes `entityBlocked`. -/
theorem moveEntity_oob_and_blocked_w :
    ((((GridEngine.new 3 3).addEntity ⟨true, false⟩ 1 0).2.addEntity ⟨false, false⟩ 0 0).2.moveEntity
        2 (-1) 0
      = (false, (((GridEngine.new 3 3).addEntity ⟨true, false⟩ 1 0).2.addEntity ⟨false, false⟩ 0 0).2, [])) ∧
    ((((GridEngine.new 3 3).addEntity ⟨true, false⟩ 1 0).2.addEntity ⟨false, false⟩ 0 0).2.moveEntity
        2 1 0
      = (false, (((GridEngine.new 3 3).addEntity ⟨true, false⟩ 1 0).2.addEntity ⟨false, false⟩ 0 0).2,
          [.entityBlocked 2])) :=
  ⟨(moveEntity_oob_and_blocked _ 2 ⟨2, 0, 0, ⟨false, false⟩⟩ (-1) 0 (by decide)).1 (by decide),
   (moveEntity_oob_and_blocked _ 2 ⟨2, 0, 0, ⟨false, false⟩⟩ 1 0 (by decide)).2 (by decide) (by decide)⟩

/-! ## C5: addEntity has no locked / occupied check -/

/-- C5 counterexample: on a 2×2 engine whose ground layer at `(0,0)`
holds a locked entity, `addEntity` of a solid record at `(0,0)` does not
fail with an occupied error — it returns the fresh id 2; and with a
non-locked occupant, the displaced occupant is not removed from the
engine: it is still in the entity table afterwards.  This refutes both
halves of the claimed occupied/replace semantics. -/
theorem addEntity_occupied_cex :
    ((((GridEngine.new 2 2).addEntity ⟨true, true⟩ 0 0).2.addEntity ⟨true, false⟩ 0 0).1
      = some 2) ∧
    ((((GridEngine.new 2 2).addEntity ⟨true, false⟩ 0 0).2.addEntity ⟨true, false⟩ 0 0).2.entities 1
      = some ⟨1, 0, 0, ⟨true, false⟩⟩) := by
  decide

/-- C5 (amended): `addEntity` on an in-bounds cell always succeeds with
the fresh monotonically increasing id (`nextId`, then incremented),
regardless of any occupant of the target layer and of its `locked`
flag; it overwrites the target layer slot with a reference to the new
entity and leaves every other entity-table entry — including a
displaced occupant — untouched (script.js:51-68). -/
theorem addEntity_always_inserts (g : GridEngine) (data : EntityData) (x y : Int)
    (hx0 : 0 ≤ x) (hxw : x < g.w) (hy0 : 0 ≤ y) (hyh : y < g.h) :
    (g.addEntity data x y).1 = some g.nextId ∧
    (g.addEntity data x y).2.nextId = g.nextId + 1 ∧
    (g.addEntity data x y).2.entities g.nextId = some ⟨g.nextId, x, y, data⟩ ∧
    (∀ id, id ≠ g.nextId → (g.addEntity data x y).2.entities id = g.entities id) ∧
    cond data.solid ((g.addEntity data x y).2.ground x y) ((g.addEntity data x y).2.actor x y)
      = some ⟨g.nextId, data.solid⟩ := by
  have hb : ¬(x < 0 ∨ y < 0 ∨ x ≥ g.w ∨ y ≥ g.h) := by omega
  unfold GridEngine.addEntity
  rw [if_neg hb]
  cases hs : data.solid
  · simp only [hs, Bool.false_eq_true, if_false, cond_false]
    refine ⟨trivial, trivial, ?_, ?_, ?_⟩
    · rw [setEnt_same]
    · intro id hid; exact setEnt_ne _ _ _ _ hid
    · rw [setSlot_same]
  · simp only [hs, if_true, cond_true]
    refine ⟨trivial, trivial, ?_, ?_, ?_⟩
    · rw [setEnt_same]
    · intro id hid; exact setEnt_ne _ _ _ _ hid
    · rw [setSlot_same]

/-- Witness for C5 (amended): inserting a solid record onto the cell
whose ground layer holds a locked entity succeeds, increments the id
counter, keeps the locked occupant in the table and overwrites the
ground slot. -/
theorem addEntity_always_inserts_w :
    ((((GridEngine.new 2 2).addEntity ⟨true, true⟩ 0 0).2.addEntity ⟨true, false⟩ 0 0).1
      = some 2) ∧
    ((((GridEngine.new 2 2).addEntity ⟨true, true⟩ 0 0).2.addEntity ⟨true, false⟩ 0 0).2.nextId
      = 3) ∧
    ((((GridEngine.new 2 2).addEntity ⟨true, true⟩ 0 0).2.addEntity ⟨true, false⟩ 0 0).2.entities 2
      = some ⟨2, 0, 0, ⟨true, false⟩⟩) ∧
    ((((GridEngine.new 2 2).addEntity ⟨true, true⟩ 0 0).2.addEntity ⟨true, false⟩ 0 0).2.entities 1
      = ((GridEngine.new 2 2).addEntity ⟨true, true⟩ 0 0).2.entities 1) ∧
    cond true ((((GridEngine.new 2 2).addEntity ⟨true, true⟩ 0 0).2.addEntity ⟨true, false⟩ 0 0).2.ground 0 0)
        ((((GridEngine.new 2 2).addEntity ⟨true, true⟩ 0 0).2.addEntity ⟨true, false⟩ 0 0).2.actor 0 0)
      = some ⟨2, true⟩ :=
  have h := addEntity_always_inserts ((GridEngine.new 2 2).addEntity ⟨true, true⟩ 0 0).2
    ⟨true, false⟩ 0 0 (by decide) (by decide) (by decide) (by decide)
  ⟨h.1, h.2.1, h.2.2.1, h.2.2.2.1 1 (by decide), h.2.2.2.2⟩

/-! ## C6: duplicate tile registration -/

/-- C6 counterexample: registering a second tile with the id `wall` does
not fail.  The array variant (script.js:18-21) stores both entries, and
the Map variant (script.js:324-326) replaces the first definition, so
the first registration is no longer retrievable unchanged. -/
theorem registerTile_duplicate_cex :
    (registerTile (registerTile [] ⟨"wall", "Wall", "#555", true⟩)
        ⟨"wall", "Wall2", "#000", true⟩).length = 2 ∧
    mapLookup "wall"
        (registerTileMap (registerTileMap [] ⟨"wall", "Wall", "#555", true⟩)
          ⟨"wall", "Wall2", "#000", true⟩)
      = some ⟨"wall", "Wall2", "#000", true⟩ ∧
    (⟨"wall", "Wall2", "#000", true⟩ : Tile) ≠ ⟨"wall", "Wall", "#555", true⟩ := by
  decide

/-- C6 (amended): neither variant fails on a duplicate id.  The
Map-variant `registerTileMap` appends when the id is fresh (so distinct
ids are all stored and enumerate in insertion order) and otherwise
replaces the first definition in place, keeping the key sequence; the
array-variant `registerTile` always appends, so both registrations of a
pair are stored in insertion order regardless of their ids. -/
theorem registerTileMap_spec (m : List (String × Tile)) (t : Tile) :
    (mapLookup t.id m = none → registerTileMap m t = m ++ [(t.id, t)]) ∧
    (mapLookup t.id m ≠ none →
      mapKeys (registerTileMap m t) = mapKeys m ∧
      mapLookup t.id (registerTileMap m t) = some t) ∧
    (∀ (tiles : List Tile) (t2 : Tile),
      registerTile (registerTile tiles t) t2 = tiles ++ [t, t2]) := by
  refine ⟨?_, ?_, ?_⟩
  · intro habsent
    induction m with
    | nil => rfl
    | cons p rest ih =>
      obtain ⟨k', v'⟩ := p
      by_cases hk : k' = t.id
      · rw [mapLookup, if_pos hk] at habsent; cases habsent
      · rw [mapLookup, if_neg hk] at habsent
        show mapSet t.id t ((k', v') :: rest) = (k', v') :: rest ++ [(t.id, t)]
        rw [mapSet, if_neg hk]
        have := ih habsent
        rw [registerTileMap] at this
        rw [this]
        simp
  · intro hpresent
    induction m with
    | nil => exact absurd rfl hpresent
    | cons p rest ih =>
      obtain ⟨k', v'⟩ := p
      by_cases hk : k' = t.id
      · constructor
        · show mapKeys (mapSet t.id t ((k', v') :: rest)) = mapKeys ((k', v') :: rest)
          rw [mapSet, if_pos hk]
          simp [mapKeys, hk]
        · show mapLookup t.id (mapSet t.id t ((k', v') :: rest)) = some t
          rw [mapSet, if_pos hk, mapLookup, if_pos rfl]
      · rw [mapLookup, if_neg hk] at hpresent
        obtain ⟨h1, h2⟩ := ih hpresent
        rw [registerTileMap] at h1 h2
        constructor
        · show mapKeys (mapSet t.id t ((k', v') :: rest)) = mapKeys ((k', v') :: rest)
          rw [mapSet, if_neg hk]
          simp only [mapKeys, List.map_cons]
          rw [show (mapSet t.id t rest).map Prod.fst = mapKeys (mapSet t.id t rest) from rfl, h1]
          rfl
        · show mapLookup t.id (mapSet t.id t ((k', v') :: rest)) = some t
          rw [mapSet, if_neg hk, mapLookup, if_neg hk]
          exact h2
  · intro tiles t2
    simp [registerTile]

/-- Witness for C6 (amended), on a registry already holding a `wall`
tile: re-registering id `wall` keeps the key sequence and retrieves the
new definition; a fresh id `floor` is appended. -/
theorem registerTileMap_spec_w :
    (mapKeys (registerTileMap [("wall", ⟨"wall", "Wall", "#555", true⟩)]
        ⟨"wall", "Wall2", "#000", true⟩)
      = mapKeys [("wall", (⟨"wall", "Wall", "#555", true⟩ : Tile))] ∧
     mapLookup "wall" (registerTileMap [("wall", ⟨"wall", "Wall", "#555", true⟩)]
        ⟨"wall", "Wall2", "#000", true⟩)
      = some ⟨"wall", "Wall2", "#000", true⟩) ∧
    registerTileMap [("wall", ⟨"wall", "Wall", "#555", true⟩)] ⟨"floor", "Floor", "#aaa", false⟩
      = [("wall", ⟨"wall", "Wall", "#555", true⟩)] ++ [("floor", ⟨"floor", "Floor", "#aaa", false⟩)] :=
  ⟨(registerTileMap_spec [("wall", ⟨"wall", "Wall", "#555", true⟩)]
      ⟨"wall", "Wall2", "#000", true⟩).2.1 (by decide),
   (registerTileMap_spec [("wall", ⟨"wall", "Wall", "#555", true⟩)]
      ⟨"floor", "Floor", "#aaa", false⟩).1 (by decide)⟩

/-! ## C7: loadAll selection and persistence -/

/-- C7 counterexample: with the empty requested set, `loadAll` does not
load nothing — it loads every available identifier (the guard
`saved.length && ...` is falsy for `[]`), and it performs no store
write at all, so no active set is persisted (script.js:171-177). -/
theorem loadAll_empty_saved_cex :
    (loadAll ["IcePlugin.js".toList] []).loaded = ["IcePlugin.js".toList] ∧
    (loadAll ["IcePlugin.js".toList] []).loaded ≠ [] ∧
    (loadAll ["IcePlugin.js".toList] []).storeWrites = [] := by
  decide

/-- C7 (amended): for a non-empty requested set, `loadAll` attempts to
load exactly the available identifiers contained in it, in order; for
the empty requested set it attempts every available identifier; and it
never writes the active set to the external store. -/
theorem loadAll_selection (files saved : List (List Char)) :
    (saved = [] → (loadAll files saved).loaded = files) ∧
    (saved ≠ [] → (loadAll files saved).loaded = files.filter fun f => saved.contains f) ∧
    (loadAll files saved).storeWrites = [] := by
  refine ⟨?_, ?_, rfl⟩
  · rintro rfl
    simp [loadAll]
  · intro h
    cases saved with
    | nil => exact absurd rfl h
    | cons a as =>
      simp [loadAll]

/-! ## C4: a throwing handler aborts emit -/

/-- C4 counterexample: on a bus with two handlers (handler 0 then
handler 1, equal priority), a throw by handler 0 means handler 1 is
never invoked and the exception escapes `emit` — the loop at
script.js:10-12 has no `try`/`catch`. -/
theorem emit_throw_cex :
    (busEmitRun (fun n => n == 0) (busSubscribeAll [(0, 0), (1, 0)])).1 = [0] ∧
    (1 : Nat) ∉ (busEmitRun (fun n => n == 0) (busSubscribeAll [(0, 0), (1, 0)])).1 ∧
    (busEmitRun (fun n => n == 0) (busSubscribeAll [(0, 0), (1, 0)])).2 = true := by
  decide

/-- C4 (amended): during one `emit`, the handlers invoked are exactly
those before the first throwing handler, plus that handler itself;
every later handler is skipped, and an exception escapes the `emit`
call iff some registered handler throws. -/
theorem emit_throw_propagates (throws : Nat → Bool) (l : List Entry) :
    (busEmitRun throws l).1
      = (l.takeWhile fun e => !throws e.fn).map Entry.fn
        ++ ((l.dropWhile fun e => !throws e.fn).take 1).map Entry.fn ∧
    (busEmitRun throws l).2 = l.any fun e => throws e.fn := by
  induction l with
  | nil => exact ⟨rfl, rfl⟩
  | cons e rest ih =>
    by_cases h : throws e.fn = true
    · rw [busEmitRun]
      simp [h, List.takeWhile_cons, List.dropWhile_cons]
    · have h' : throws e.fn = false := by
        cases hfn : throws e.fn
        · rfl
        · exact absurd hfn h
      rw [busEmitRun]
      simp only [h', Bool.false_eq_true, if_false, List.takeWhile_cons, List.dropWhile_cons,
        Bool.not_false, if_true, List.map_cons, List.any_cons, Bool.false_or, List.cons_append]
      exact ⟨by rw [ih.1], ih.2⟩

/-! ## C8: plugin-list parsing -/

theorem dropWhile_head_false (p : Char → Bool) :
    ∀ (l rest : List Char) (c : Char), l.dropWhile p = c :: rest → p c = false := by
  intro l
  induction l with
  | nil => intro rest c h; cases h
  | cons a l' ih =>
    intro rest c h
    rw [List.dropWhile_cons] at h
    by_cases hp : p a = true
    · rw [if_pos hp] at h
      exact ih rest c h
    · rw [if_neg hp] at h
      cases h
      cases hpa : p a
      · rfl
      · exact absurd hpa hp

theorem jsTrim_head (l : List Char) (c : Char) (rest : List Char)
    (h : l.dropWhile Char.isWhitespace = c :: rest) :
    ∃ t, jsTrim l = c :: t := by
  have hc : c.isWhitespace = false := dropWhile_head_false _ l rest c h
  unfold jsTrim
  rw [h]
  rw [show (c :: rest).reverse = rest.reverse ++ [c] by simp]
  rw [List.dropWhile_append]
  by_cases he : (rest.reverse.dropWhile Char.isWhitespace).isEmpty = true
  · rw [if_pos he, List.dropWhile_cons, hc]
    exact ⟨[], rfl⟩
  · rw [if_neg he]
    exact ⟨(rest.reverse.dropWhile Char.isWhitespace).reverse, by simp⟩

theorem jsTrim_nil_of_dropWhile_nil (l : List Char)
    (h : l.dropWhile Char.isWhitespace = []) : jsTrim l = [] := by
  unfold jsTrim
  rw [h]
  rfl

theorem codeKeep_eq_specLineKeep (l : List Char) :
    (!(jsTrim l).isEmpty && !startsHash (jsTrim l)) = specLineKeep l := by
  cases h : l.dropWhile Char.isWhitespace with
  | nil =>
    rw [specLineKeep, jsTrim_nil_of_dropWhile_nil l h, h]
    rfl
  | cons c rest =>
    obtain ⟨t, ht⟩ := jsTrim_head l c rest h
    rw [specLineKeep, h, ht]
    rfl

/-- C8: parsing the plugin list text keeps, in order, exactly the lines
that are non-blank after trimming and whose first non-whitespace
character is not `#` (stated against `specLineKeep`, written from the
spec's wording); in particular the scenario input parses to exactly
`IcePlugin.js`, `MapEditorPlugin.js`, and a fetch failure yields the
empty sequence (script.js:148-156). -/
theorem fetchPluginList_spec :
    fetchPluginList (some ("# comment\nIcePlugin.js\n\nMapEditorPlugin.js\n".toList))
      = ["IcePlugin.js".toList, "MapEditorPlugin.js".toList] ∧
    fetchPluginList none = [] ∧
    ∀ text, fetchPluginList (some text) = ((jsSplitNl text).filter specLineKeep).map jsTrim := by
  refine ⟨by decide, rfl, ?_⟩
  intro text
  show ((jsSplitNl text).map jsTrim).filter _ = _
  rw [List.filter_map]
  congr 1
  apply List.filter_congr
  intro a _
  exact codeKeep_eq_specLineKeep a

/-! ## C3: publish order is priority-descending, stable on ties -/

theorem entryBefore_to_LE {a b : Entry} (h : entryBefore a b) : entryLE a b := by
  rcases h with h | ⟨h, _⟩
  · exact le_of_lt h
  · exact le_of_eq h.symm

theorem mem_insertTail (a e : Entry) :
    ∀ l : List Entry, a ∈ insertTail e l ↔ a = e ∨ a ∈ l := by
  intro l
  induction l with
  | nil => simp [insertTail]
  | cons y ys ih =>
    rw [insertTail]
    by_cases hye : entryLE y e
    · rw [if_pos hye]
      simp only [List.mem_cons, ih]
      tauto
    · rw [if_neg hye]
      simp only [List.mem_cons]

theorem orderedInsert_insertTail (x e : Entry) (l' : List Entry)
    (hx : ∀ y ∈ l', entryLE x y) :
    List.orderedInsert entryLE x (insertTail e l') = insertTail e (x :: l') := by
  cases l' with
  | nil =>
    by_cases hxe : entryLE x e
    · simp [insertTail, List.orderedInsert, hxe]
    · simp [insertTail, List.orderedInsert, hxe]
  | cons y l'' =>
    have hxy : entryLE x y := hx y (List.mem_cons_self y l'')
    rw [show insertTail e (y :: l'') =
        if entryLE y e then y :: insertTail e l'' else e :: y :: l'' from rfl]
    by_cases hye : entryLE y e
    · have hxe : entryLE x e := le_trans hye hxy
      rw [if_pos hye, List.orderedInsert, if_pos hxy]
      rw [show insertTail e (x :: y :: l'') =
          if entryLE x e then x :: insertTail e (y :: l'') else e :: x :: y :: l'' from rfl]
      rw [if_pos hxe]
      rw [show insertTail e (y :: l'') =
          if entryLE y e then y :: insertTail e l'' else e :: y :: l'' from rfl]
      rw [if_pos hye]
    · rw [if_neg hye]
      rw [show insertTail e (x :: y :: l'') =
          if entryLE x e then x :: insertTail e (y :: l'') else e :: x :: y :: l'' from rfl]
      rw [show insertTail e (y :: l'') =
          if entryLE y e then y :: insertTail e l'' else e :: y :: l'' from rfl]
      by_cases hxe : entryLE x e
      · rw [List.orderedInsert, if_pos hxe, if_pos hxe, if_neg hye]
      · rw [List.orderedInsert, if_neg hxe, if_neg hxe, List.orderedInsert, if_pos hxy]

theorem insertionSort_sorted_append (l : List Entry) (e : Entry)
    (hl : l.Pairwise entryLE) :
    List.insertionSort entryLE (l ++ [e]) = insertTail e l := by
  induction l with
  | nil => simp [insertTail, List.insertionSort, List.orderedInsert]
  | cons x l' ih =>
    rw [List.pairwise_cons] at hl
    rw [List.cons_append, List.insertionSort, ih hl.2]
    exact orderedInsert_insertTail x e l' hl.1

theorem insertTail_pairwise (e : Entry) :
    ∀ l : List Entry, l.Pairwise entryBefore → (∀ y ∈ l, y.tag < e.tag) →
      (insertTail e l).Pairwise entryBefore := by
  intro l
  induction l with
  | nil =>
    intro _ _
    simp [insertTail]
  | cons y ys ih =>
    intro hl ht
    rw [List.pairwise_cons] at hl
    rw [insertTail]
    by_cases hye : entryLE y e
    · rw [if_pos hye, List.pairwise_cons]
      constructor
      · intro z hz
        rw [mem_insertTail] at hz
        rcases hz with rfl | hz
        · rcases lt_or_eq_of_le (hye : z.priority ≤ y.priority) with hlt | heq
          · exact Or.inl hlt
          · exact Or.inr ⟨heq.symm, ht y (List.mem_cons_self y ys)⟩
        · exact hl.1 z hz
      · exact ih hl.2 fun y' hy' => ht y' (List.mem_cons_of_mem y hy')
    · rw [if_neg hye, List.pairwise_cons]
      have hey : y.priority < e.priority := not_le.mp hye
      constructor
      · intro z hz
        rcases List.mem_cons.mp hz with rfl | hz
        · exact Or.inl hey
        · rcases hl.1 z hz with h | ⟨h, _⟩
          · exact Or.inl (lt_trans h hey)
          · exact Or.inl (h ▸ hey)
      · exact List.Pairwise.cons hl.1 hl.2

theorem foldl_busOn_inv :
    ∀ (es l : List Entry), l.Pairwise entryBefore →
      (∀ e' ∈ es, ∀ y ∈ l, y.tag < e'.tag) →
      es.Pairwise (fun a b => a.tag < b.tag) →
      (es.foldl busOn l).Pairwise entryBefore ∧ (es.foldl busOn l).Perm (l ++ es) := by
  intro es
  induction es with
  | nil =>
    intro l hl _ _
    exact ⟨hl, by simp⟩
  | cons e es' ih =>
    intro l hl htags hes
    rw [List.foldl_cons]
    have hLE : l.Pairwise entryLE := hl.imp fun hab => entryBefore_to_LE hab
    have hb : busOn l e = insertTail e l := insertionSort_sorted_append l e hLE
    have hP : (insertTail e l).Pairwise entryBefore :=
      insertTail_pairwise e l hl (htags e (List.mem_cons_self e es'))
    rw [List.pairwise_cons] at hes
    have htags' : ∀ e' ∈ es', ∀ y ∈ insertTail e l, y.tag < e'.tag := by
      intro e' he' y hy
      rw [mem_insertTail] at hy
      rcases hy with rfl | hy
      · exact hes.1 e' he'
      · exact htags e' (List.mem_cons_of_mem e he') y hy
    rw [hb]
    obtain ⟨h1, h2⟩ := ih (insertTail e l) hP htags' hes.2
    refine ⟨h1, h2.trans ?_⟩
    have hins : (insertTail e l).Perm (l ++ [e]) := hb ▸ List.perm_insertionSort entryLE (l ++ [e])
    have := hins.append_right es'
    rw [List.append_assoc, List.singleton_append] at this
    exact this

theorem mem_enumFrom_le {α : Type} :
    ∀ (l : List α) (n : Nat) (q : Nat × α), q ∈ List.enumFrom n l → n ≤ q.1 := by
  intro l
  induction l with
  | nil =>
    intro n q h
    cases h
  | cons a l' ih =>
    intro n q h
    rw [List.enumFrom, List.mem_cons] at h
    rcases h with rfl | h
    · exact le_refl n
    · exact le_of_lt (lt_of_lt_of_le (Nat.lt_succ_self n) (ih (n + 1) q h))

theorem enumFrom_pairwise_fst_lt {α : Type} :
    ∀ (l : List α) (n : Nat), (List.enumFrom n l).Pairwise fun p q => p.1 < q.1 := by
  intro l
  induction l with
  | nil =>
    intro n
    exact List.Pairwise.nil
  | cons a l' ih =>
    intro n
    rw [List.enumFrom]
    refine List.Pairwise.cons ?_ (ih (n + 1))
    intro q hq
    exact lt_of_lt_of_le (Nat.lt_succ_self n) (mem_enumFrom_le l' (n + 1) q hq)

theorem tagEntries_pairwise (subs : List (Nat × Int)) :
    (tagEntries subs).Pairwise fun a b => a.tag < b.tag := by
  unfold tagEntries
  rw [List.pairwise_map]
  exact enumFrom_pairwise_fst_lt subs 0

theorem busEmitRun_nothrow : ∀ l : List Entry,
    busEmitRun (fun _ => false) l = (l.map Entry.fn, false) := by
  intro l
  induction l with
  | nil => rfl
  | cons e rest ih =>
    rw [busEmitRun]
    simp only [Bool.false_eq_true, if_false, ih, List.map_cons]

/-- C3: after any sequence of subscriptions on a fresh bus, `emit`
invokes exactly the currently registered handlers (a permutation of all
subscriptions), in the listener-list order, and that order is strictly
descending by priority with equal-priority entries in subscription
order (`entryBefore` over subscription tags) — script.js:4-13. -/
theorem bus_publish_order (subs : List (Nat × Int)) :
    (busEmitRun (fun _ => false) (busSubscribeAll subs)).1 = (busSubscribeAll subs).map Entry.fn ∧
    (busSubscribeAll subs).Pairwise entryBefore ∧
    (busSubscribeAll subs).Perm (tagEntries subs) := by
  obtain ⟨h1, h2⟩ := foldl_busOn_inv (tagEntries subs) [] List.Pairwise.nil
    (fun e' _ y hy => absurd hy (List.not_mem_nil y)) (tagEntries_pairwise subs)
  refine ⟨?_, h1, ?_⟩
  · rw [busEmitRun_nothrow]
  · rw [List.nil_append] at h2
    exact h2

/-! ## C1: grid / entity-table consistency -/

/-- C1 counterexample: starting from a fresh 2×2 engine, two public
`addEntity` mutations on the same cell leave the engine inconsistent —
entity 1 is still in the table, but its own actor slot now references
entity 2, so the table→grid direction fails after a public mutation. -/
theorem consistency_cex :
    ¬ consistent
      (((GridEngine.new 2 2).addEntity ⟨false, false⟩ 0 0).2.addEntity ⟨false, false⟩ 0 0).2 := by
  rintro ⟨-, -, hTG⟩
  have h1 : (((GridEngine.new 2 2).addEntity ⟨false, false⟩ 0 0).2.addEntity
      ⟨false, false⟩ 0 0).2.entities 1 = some ⟨1, 0, 0, ⟨false, false⟩⟩ := by decide
  have hown := (hTG 1 ⟨1, 0, 0, ⟨false, false⟩⟩ h1).1
  revert hown
  decide

theorem consistent_removeEntity (g : GridEngine) (hg : consistent g) (id : Nat) :
    consistent (g.removeEntity id) := by
  obtain ⟨hB, hGT, hTG⟩ := hg
  cases he : g.entities id with
  | none =>
    have hEq : g.removeEntity id = g := by
      unfold GridEngine.removeEntity
      rw [he]
    rw [hEq]
    exact ⟨hB, hGT, hTG⟩
  | some e =>
    have heid : e.id = id := (hB id e he).1
    have hG : (g.removeEntity id).ground = clearSlot g.ground e.x e.y e.id := by
      unfold GridEngine.removeEntity
      rw [he]
    have hA : (g.removeEntity id).actor = clearSlot g.actor e.x e.y e.id := by
      unfold GridEngine.removeEntity
      rw [he]
    have hE : (g.removeEntity id).entities = setEnt g.entities id none := by
      unfold GridEngine.removeEntity
      rw [he]
    have hN : (g.removeEntity id).nextId = g.nextId := by
      unfold GridEngine.removeEntity
      rw [he]
    obtain ⟨hown, hlayer, helse⟩ := hTG id e he
    refine ⟨?_, ?_, ?_⟩
    · intro id' e' h'
      rw [hE] at h'
      rw [hN]
      by_cases hi : id' = id
      · rw [hi, setEnt_same] at h'
        cases h'
      · rw [setEnt_ne _ _ _ _ hi] at h'
        exact hB id' e' h'
    · intro x y r hr
      rw [hG, hA] at hr
      rw [hE]
      have hrg : g.ground x y = some r ∨ g.actor x y = some r := by
        rcases hr with h | h
        · exact Or.inl (clearSlot_sub _ _ _ _ _ _ _ h)
        · exact Or.inr (clearSlot_sub _ _ _ _ _ _ _ h)
      obtain ⟨e'', he''⟩ := hGT x y r hrg
      have hrid : r.id ≠ id := by
        intro hrid
        by_cases hxy : x = e.x ∧ y = e.y
        · rcases hr with h | h
          · have hfalse := clearSlot_own g.ground e.x e.y e.id
            rw [hxy.1, hxy.2] at h
            rw [h, refsId_some_eq] at hfalse
            simp [hrid, heid] at hfalse
          · have hfalse := clearSlot_own g.actor e.x e.y e.id
            rw [hxy.1, hxy.2] at h
            rw [h, refsId_some_eq] at hfalse
            simp [hrid, heid] at hfalse
        · rcases hr with h | h
          · rw [clearSlot_not_own_cell _ _ _ _ _ _ hxy] at h
            have hf := (helse x y hxy).1
            rw [h, refsId_some_eq] at hf
            simp [hrid] at hf
          · rw [clearSlot_not_own_cell _ _ _ _ _ _ hxy] at h
            have hf := (helse x y hxy).2
            rw [h, refsId_some_eq] at hf
            simp [hrid] at hf
      refine ⟨e'', ?_⟩
      rw [setEnt_ne _ _ _ _ hrid]
      exact he''
    · intro id' e' h'
      rw [hE] at h'
      rw [hG, hA]
      by_cases hi : id' = id
      · rw [hi, setEnt_same] at h'
        cases h'
      · rw [setEnt_ne _ _ _ _ hi] at h'
        obtain ⟨hown', hlayer', helse'⟩ := hTG id' e' h'
        have hie : id' ≠ e.id := fun hcon => hi (hcon.trans heid)
        refine ⟨?_, ?_, ?_⟩
        · cases hs' : e'.data.solid
          · simp only [hs', cond_false] at hown' ⊢
            rw [clearSlot_other_id _ _ _ _ _ _ _ hie]
            exact hown'
          · simp only [hs', cond_true] at hown' ⊢
            rw [clearSlot_other_id _ _ _ _ _ _ _ hie]
            exact hown'
        · cases hs' : e'.data.solid
          · simp only [hs', cond_false] at hlayer' ⊢
            rw [clearSlot_other_id _ _ _ _ _ _ _ hie]
            exact hlayer'
          · simp only [hs', cond_true] at hlayer' ⊢
            rw [clearSlot_other_id _ _ _ _ _ _ _ hie]
            exact hlayer'
        · intro x y hxy
          obtain ⟨hg1, hg2⟩ := helse' x y hxy
          constructor
          · rw [clearSlot_other_id _ _ _ _ _ _ _ hie]
            exact hg1
          · rw [clearSlot_other_id _ _ _ _ _ _ _ hie]
            exact hg2

theorem consistent_addEntity (g : GridEngine) (hg : consistent g) (data : EntityData)
    (x y : Int) (hx0 : 0 ≤ x) (hxw : x < g.w) (hy0 : 0 ≤ y) (hyh : y < g.h)
    (hempty : cond data.solid (g.ground x y) (g.actor x y) = none) :
    consistent (g.addEntity data x y).2 := by
  obtain ⟨hB, hGT, hTG⟩ := hg
  have hb : ¬(x < 0 ∨ y < 0 ∨ x ≥ g.w ∨ y ≥ g.h) := by omega
  have hcellfresh : ∀ a b r, (g.ground a b = some r ∨ g.actor a b = some r) →
      r.id ≠ g.nextId := by
    intro a b r hr hcon
    obtain ⟨e'', he''⟩ := hGT a b r hr
    have hlt := (hB _ _ he'').2
    omega
  cases hs : data.solid
  · have hempty' : g.actor x y = none := by rw [hs, cond_false] at hempty; exact hempty
    have hG : (g.addEntity data x y).2.ground = g.ground := by
      unfold GridEngine.addEntity
      rw [if_neg hb]
      simp only [hs, Bool.false_eq_true, if_false]
    have hA : (g.addEntity data x y).2.actor
        = setSlot g.actor x y (some ⟨g.nextId, data.solid⟩) := by
      unfold GridEngine.addEntity
      rw [if_neg hb]
      simp only [hs, Bool.false_eq_true, if_false]
    have hE : (g.addEntity data x y).2.entities
        = setEnt g.entities g.nextId (some ⟨g.nextId, x, y, data⟩) := by
      unfold GridEngine.addEntity
      rw [if_neg hb]
      simp only [hs, Bool.false_eq_true, if_false]
    have hN : (g.addEntity data x y).2.nextId = g.nextId + 1 := by
      unfold GridEngine.addEntity
      rw [if_neg hb]
      simp only [hs, Bool.false_eq_true, if_false]
    refine ⟨?_, ?_, ?_⟩
    · intro id' e' h'
      rw [hE] at h'
      rw [hN]
      by_cases hi : id' = g.nextId
      · subst hi
        rw [setEnt_same] at h'
        cases h'
        exact ⟨rfl, Nat.lt_succ_self _⟩
      · rw [setEnt_ne _ _ _ _ hi] at h'
        obtain ⟨h1, h2⟩ := hB id' e' h'
        exact ⟨h1, Nat.lt_succ_of_lt h2⟩
    · intro a b r hr
      rw [hG, hA] at hr
      rw [hE]
      rcases hr with h | h
      · obtain ⟨e'', he''⟩ := hGT a b r (Or.inl h)
        exact ⟨e'', by rw [setEnt_ne _ _ _ _ (hcellfresh a b r (Or.inl h))]; exact he''⟩
      · by_cases hab : a = x ∧ b = y
        · rw [hab.1, hab.2, setSlot_same] at h
          cases h
          exact ⟨⟨g.nextId, x, y, data⟩, setEnt_same _ _ _⟩
        · rw [setSlot_ne _ _ _ _ _ _ hab] at h
          obtain ⟨e'', he''⟩ := hGT a b r (Or.inr h)
          exact ⟨e'', by rw [setEnt_ne _ _ _ _ (hcellfresh a b r (Or.inr h))]; exact he''⟩
    · intro id' e' h'
      rw [hE] at h'
      rw [hG, hA]
      by_cases hi : id' = g.nextId
      · subst hi
        rw [setEnt_same] at h'
        cases h'
        refine ⟨?_, ?_, ?_⟩
        · simp only [hs, cond_false]
          rw [setSlot_same, refsId_some_eq]
          simp
        · simp only [hs, cond_false]
          rw [refsId_false_iff]
          intro r hr
          exact hcellfresh x y r (Or.inl hr)
        · intro a b hab
          constructor
          · rw [refsId_false_iff]
            intro r hr
            exact hcellfresh a b r (Or.inl hr)
          · rw [setSlot_ne _ _ _ _ _ _ hab, refsId_false_iff]
            intro r hr
            exact hcellfresh a b r (Or.inr hr)
      · rw [setEnt_ne _ _ _ _ hi] at h'
        obtain ⟨hown', hlayer', helse'⟩ := hTG id' e' h'
        have hni : g.nextId ≠ id' := fun hcon => hi hcon.symm
        refine ⟨?_, ?_, ?_⟩
        · cases hs' : e'.data.solid
          · simp only [hs', cond_false] at hown' ⊢
            by_cases hab : e'.x = x ∧ e'.y = y
            · exfalso
              rw [hab.1, hab.2, hempty'] at hown'
              simp [refsId] at hown'
            · rw [setSlot_ne _ _ _ _ _ _ hab]
              exact hown'
          · simp only [hs', cond_true] at hown' ⊢
            exact hown'
        · cases hs' : e'.data.solid
          · simp only [hs', cond_false] at hlayer' ⊢
            exact hlayer'
          · simp only [hs', cond_true] at hlayer' ⊢
            by_cases hab : e'.x = x ∧ e'.y = y
            · rw [hab.1, hab.2, setSlot_same, refsId_some_eq]
              simp [hni]
            · rw [setSlot_ne _ _ _ _ _ _ hab]
              exact hlayer'
        · intro a b hab
          obtain ⟨hg1, hg2⟩ := helse' a b hab
          refine ⟨hg1, ?_⟩
          by_cases hab2 : a = x ∧ b = y
          · rw [hab2.1, hab2.2, setSlot_same, refsId_some_eq]
            simp [hni]
          · rw [setSlot_ne _ _ _ _ _ _ hab2]
            exact hg2
  · have hempty' : g.ground x y = none := by rw [hs, cond_true] at hempty; exact hempty
    have hG : (g.addEntity data x y).2.ground
        = setSlot g.ground x y (some ⟨g.nextId, data.solid⟩) := by
      unfold GridEngine.addEntity
      rw [if_neg hb]
      simp only [hs, if_true]
    have hA : (g.addEntity data x y).2.actor = g.actor := by
      unfold GridEngine.addEntity
      rw [if_neg hb]
      simp only [hs, if_true]
    have hE : (g.addEntity data x y).2.entities
        = setEnt g.entities g.nextId (some ⟨g.nextId, x, y, data⟩) := by
      unfold GridEngine.addEntity
      rw [if_neg hb]
      simp only [hs, if_true]
    have hN : (g.addEntity data x y).2.nextId = g.nextId + 1 := by
      unfold GridEngine.addEntity
      rw [if_neg hb]
      simp only [hs, if_true]
    refine ⟨?_, ?_, ?_⟩
    · intro id' e' h'
      rw [hE] at h'
      rw [hN]
      by_cases hi : id' = g.nextId
      · subst hi
        rw [setEnt_same] at h'
        cases h'
        exact ⟨rfl, Nat.lt_succ_self _⟩
      · rw [setEnt_ne _ _ _ _ hi] at h'
        obtain ⟨h1, h2⟩ := hB id' e' h'
        exact ⟨h1, Nat.lt_succ_of_lt h2⟩
    · intro a b r hr
      rw [hG, hA] at hr
      rw [hE]
      rcases hr with h | h
      · by_cases hab : a = x ∧ b = y
        · rw [hab.1, hab.2, setSlot_same] at h
          cases h
          exact ⟨⟨g.nextId, x, y, data⟩, setEnt_same _ _ _⟩
        · rw [setSlot_ne _ _ _ _ _ _ hab] at h
          obtain ⟨e'', he''⟩ := hGT a b r (Or.inl h)
          exact ⟨e'', by rw [setEnt_ne _ _ _ _ (hcellfresh a b r (Or.inl h))]; exact he''⟩
      · obtain ⟨e'', he''⟩ := hGT a b r (Or.inr h)
        exact ⟨e'', by rw [setEnt_ne _ _ _ _ (hcellfresh a b r (Or.inr h))]; exact he''⟩
    · intro id' e' h'
      rw [hE] at h'
      rw [hG, hA]
      by_cases hi : id' = g.nextId
      · subst hi
        rw [setEnt_same] at h'
        cases h'
        refine ⟨?_, ?_, ?_⟩
        · simp only [hs, cond_true]
          rw [setSlot_same, refsId_some_eq]
          simp
        · simp only [hs, cond_true]
          rw [refsId_false_iff]
          intro r hr
          exact hcellfresh x y r (Or.inr hr)
        · intro a b hab
          constructor
          · rw [setSlot_ne _ _ _ _ _ _ hab, refsId_false_iff]
            intro r hr
            exact hcellfresh a b r (Or.inl hr)
          · rw [refsId_false_iff]
            intro r hr
            exact hcellfresh a b r (Or.inr hr)
      · rw [setEnt_ne _ _ _ _ hi] at h'
        obtain ⟨hown', hlayer', helse'⟩ := hTG id' e' h'
        have hni : g.nextId ≠ id' := fun hcon => hi hcon.symm
        refine ⟨?_, ?_, ?_⟩
        · cases hs' : e'.data.solid
          · simp only [hs', cond_false] at hown' ⊢
            exact hown'
          · simp only [hs', cond_true] at hown' ⊢
            by_cases hab : e'.x = x ∧ e'.y = y
            · exfalso
              rw [hab.1, hab.2, hempty'] at hown'
              simp [refsId] at hown'
            · rw [setSlot_ne _ _ _ _ _ _ hab]
              exact hown'
        · cases hs' : e'.data.solid
          · simp only [hs', cond_false] at hlayer' ⊢
            by_cases hab : e'.x = x ∧ e'.y = y
            · rw [hab.1, hab.2, setSlot_same, refsId_some_eq]
              simp [hni]
            · rw [setSlot_ne _ _ _ _ _ _ hab]
              exact hlayer'
          · simp only [hs', cond_true] at hlayer' ⊢
            exact hlayer'
        · intro a b hab
          obtain ⟨hg1, hg2⟩ := helse' a b hab
          refine ⟨?_, hg2⟩
          by_cases hab2 : a = x ∧ b = y
          · rw [hab2.1, hab2.2, setSlot_same, refsId_some_eq]
            simp [hni]
          · rw [setSlot_ne _ _ _ _ _ _ hab2]
            exact hg1

theorem consistent_moveEntity (g : GridEngine) (hg : consistent g) (id : Nat) (e : Entity)
    (dx dy : Int) (he : g.entities id = some e) (hs : e.data.solid = false)
    (htarget : ∀ r, g.actor (e.x + dx) (e.y + dy) = some r → r.id = id) :
    consistent (g.moveEntity id dx dy).2.1 := by
  obtain ⟨hB, hGT, hTG⟩ := hg
  have heid : e.id = id := (hB id e he).1
  by_cases hoob : e.x + dx < 0 ∨ e.y + dy < 0 ∨ e.x + dx ≥ g.w ∨ e.y + dy ≥ g.h
  · have hEq : g.moveEntity id dx dy = (false, g, []) := by
      unfold GridEngine.moveEntity
      rw [he]
      simp only [if_pos hoob]
    rw [hEq]
    exact ⟨hB, hGT, hTG⟩
  · by_cases hsolid : (g.ground (e.x + dx) (e.y + dy)).elim false (·.solid) = true
    · have hEq : g.moveEntity id dx dy = (false, g, [.entityBlocked id]) := by
        unfold GridEngine.moveEntity
        rw [he]
        simp only [if_neg hoob, hsolid, if_true]
      rw [hEq]
      exact ⟨hB, hGT, hTG⟩
    · have hsolid' : (g.ground (e.x + dx) (e.y + dy)).elim false (·.solid) = false := by
        cases hq : (g.ground (e.x + dx) (e.y + dy)).elim false (·.solid)
        · rfl
        · exact absurd hq hsolid
      obtain ⟨hown, hlayer, helse⟩ := hTG id e he
      simp only [hs, cond_false] at hown hlayer
      have hgroundall : ∀ a b, refsId (g.ground a b) id = false := by
        intro a b
        by_cases hab : a = e.x ∧ b = e.y
        · rw [hab.1, hab.2]
          exact hlayer
        · exact (helse a b hab).1
      have hG : (g.moveEntity id dx dy).2.1.ground = g.ground := by
        unfold GridEngine.moveEntity
        rw [he]
        simp only [if_neg hoob, hsolid', Bool.false_eq_true, if_false]
      have hA : (g.moveEntity id dx dy).2.1.actor
          = setSlot (clearSlot g.actor e.x e.y e.id) (e.x + dx) (e.y + dy)
              (some ⟨e.id, e.data.solid⟩) := by
        unfold GridEngine.moveEntity
        rw [he]
        simp only [if_neg hoob, hsolid', Bool.false_eq_true, if_false]
      have hE : (g.moveEntity id dx dy).2.1.entities
          = setEnt g.entities id (some { e with x := e.x + dx, y := e.y + dy }) := by
        unfold GridEngine.moveEntity
        rw [he]
        simp only [if_neg hoob, hsolid', Bool.false_eq_true, if_false]
      have hN : (g.moveEntity id dx dy).2.1.nextId = g.nextId := by
        unfold GridEngine.moveEntity
        rw [he]
        simp only [if_neg hoob, hsolid', Bool.false_eq_true, if_false]
      refine ⟨?_, ?_, ?_⟩
      · intro id' e' h'
        rw [hE] at h'
        rw [hN]
        by_cases hi : id' = id
        · subst hi
          rw [setEnt_same] at h'
          cases h'
          exact ⟨heid, (hB _ e he).2⟩
        · rw [setEnt_ne _ _ _ _ hi] at h'
          exact hB id' e' h'
      · intro a b r hr
        rw [hG, hA] at hr
        rw [hE]
        have hex : ∀ rid, (∃ e'', g.entities rid = some e'') →
            ∃ e'', setEnt g.entities id (some { e with x := e.x + dx, y := e.y + dy }) rid
              = some e'' := by
          intro rid hex
          by_cases hrid : rid = id
          · subst hrid
            exact ⟨_, setEnt_same _ _ _⟩
          · rw [setEnt_ne _ _ _ _ hrid]
            exact hex
        rcases hr with h | h
        · exact hex r.id (hGT a b r (Or.inl h))
        · by_cases hab : a = e.x + dx ∧ b = e.y + dy
          · rw [hab.1, hab.2, setSlot_same] at h
            cases h
            exact hex e.id ⟨e, heid ▸ he⟩
          · rw [setSlot_ne _ _ _ _ _ _ hab] at h
            have h2 := clearSlot_sub _ _ _ _ _ _ _ h
            exact hex r.id (hGT a b r (Or.inr h2))
      · intro id' e' h'
        rw [hE] at h'
        rw [hG, hA]
        by_cases hi : id' = id
        · subst hi
          rw [setEnt_same] at h'
          cases h'
          refine ⟨?_, ?_, ?_⟩
          · simp only [hs, cond_false]
            rw [setSlot_same, refsId_some_eq]
            simp [heid]
          · simp only [hs, cond_false]
            exact hgroundall _ _
          · intro a b hab
            refine ⟨hgroundall a b, ?_⟩
            rw [setSlot_ne _ _ _ _ _ _ hab]
            by_cases hab2 : a = e.x ∧ b = e.y
            · rw [hab2.1, hab2.2, ← heid]
              exact clearSlot_own g.actor e.x e.y e.id
            · rw [clearSlot_not_own_cell _ _ _ _ _ _ hab2]
              exact (helse a b hab2).2
        · rw [setEnt_ne _ _ _ _ hi] at h'
          obtain ⟨hown', hlayer', helse'⟩ := hTG id' e' h'
          have hie : id' ≠ e.id := fun hcon => hi (hcon.trans heid)
          have hA2 : ∀ a b,
              refsId (setSlot (clearSlot g.actor e.x e.y e.id) (e.x + dx) (e.y + dy)
                  (some ⟨e.id, e.data.solid⟩) a b) id'
                = if a = e.x + dx ∧ b = e.y + dy then false else refsId (g.actor a b) id' := by
            intro a b
            by_cases hab : a = e.x + dx ∧ b = e.y + dy
            · rw [if_pos hab, hab.1, hab.2, setSlot_same, refsId_some_eq]
              simp [Ne.symm hie]
            · rw [if_neg hab, setSlot_ne _ _ _ _ _ _ hab]
              exact clearSlot_other_id _ _ _ _ _ _ _ hie
          refine ⟨?_, ?_, ?_⟩
          · cases hs' : e'.data.solid
            · simp only [hs', cond_false] at hown' ⊢
              rw [hA2]
              have hne : ¬(e'.x = e.x + dx ∧ e'.y = e.y + dy) := by
                intro hcon
                obtain ⟨r, hr, hrid⟩ := (refsId_true_iff _ _).mp hown'
                rw [hcon.1, hcon.2] at hr
                exact hi (hrid.symm.trans (htarget r hr))
              rw [if_neg hne]
              exact hown'
            · simp only [hs', cond_true] at hown' ⊢
              exact hown'
          · cases hs' : e'.data.solid
            · simp only [hs', cond_false] at hlayer' ⊢
              exact hlayer'
            · simp only [hs', cond_true] at hlayer' ⊢
              rw [hA2]
              by_cases hab : e'.x = e.x + dx ∧ e'.y = e.y + dy
              · rw [if_pos hab]
              · rw [if_neg hab]
                exact hlayer'
          · intro a b hab
            obtain ⟨hg1, hg2⟩ := helse' a b hab
            refine ⟨hg1, ?_⟩
            rw [hA2]
            by_cases hab2 : a = e.x + dx ∧ b = e.y + dy
            · rw [if_pos hab2]
            · rw [if_neg hab2]
              exact hg2

theorem consistent_new (w h : Int) : consistent (GridEngine.new w h) := by
  refine ⟨?_, ?_, ?_⟩
  · intro id e h'
    exact Option.noConfusion h'
  · intro x y r hr
    rcases hr with h' | h'
    · exact Option.noConfusion h'
    · exact Option.noConfusion h'
  · intro id e h'
    exact Option.noConfusion h'

/-- C1 (amended): the claimed bidirectional consistency is preserved by
`removeEntity` unconditionally, and by `addEntity` / `moveEntity`
(`moveActor`) only when the destination layer slot is free — for
`addEntity`, the target layer slot of the in-bounds cell is empty; for
`moveEntity`, the moved entity is non-solid and the target cell's actor
slot is empty or holds the moving entity itself.  (When the destination
slot is occupied the occupant is orphaned — see the counterexample —
so the claim's unconditional form is false.)  Consistency here is the
claim's two directions together with id well-formedness
(`idsBounded`). -/
theorem consistency_preserved (g : GridEngine) (hg : consistent g) :
    (∀ id, consistent (g.removeEntity id)) ∧
    (∀ data x y, 0 ≤ x → x < g.w → 0 ≤ y → y < g.h →
      cond data.solid (g.ground x y) (g.actor x y) = none →
      consistent (g.addEntity data x y).2) ∧
    (∀ id e dx dy, g.entities id = some e → e.data.solid = false →
      (∀ r, g.actor (e.x + dx) (e.y + dy) = some r → r.id = id) →
      consistent (g.moveEntity id dx dy).2.1) :=
  ⟨fun id => consistent_removeEntity g hg id,
   fun data x y hx0 hxw hy0 hyh hempty =>
     consistent_addEntity g hg data x y hx0 hxw hy0 hyh hempty,
   fun id e dx dy he hs ht => consistent_moveEntity g hg id e dx dy he hs ht⟩

/-- Witness for C1 (amended): on concrete engines, `removeEntity`,
`addEntity` into a free cell, and a move of the single actor one cell
right all preserve consistency. -/
theorem consistency_preserved_w :
    consistent ((GridEngine.new 2 2).removeEntity 3) ∧
    consistent (((GridEngine.new 2 2).addEntity ⟨false, false⟩ 0 0).2) ∧
    consistent ((((GridEngine.new 2 2).addEntity ⟨false, false⟩ 0 0).2).moveEntity 1 1 0).2.1 := by
  have h1 := consistency_preserved (GridEngine.new 2 2) (consistent_new 2 2)
  have hg1 : consistent (((GridEngine.new 2 2).addEntity ⟨false, false⟩ 0 0).2) :=
    h1.2.1 ⟨false, false⟩ 0 0 (by decide) (by decide) (by decide) (by decide) (by decide)
  refine ⟨h1.1 3, hg1, ?_⟩
  have h2 := consistency_preserved (((GridEngine.new 2 2).addEntity ⟨false, false⟩ 0 0).2) hg1
  refine h2.2.2 1 ⟨1, 0, 0, ⟨false, false⟩⟩ 1 0 (by decide) rfl ?_
  intro r hr
  have hr2 : (((GridEngine.new 2 2).addEntity ⟨false, false⟩ 0 0).2).actor (0 + 1) (0 + 0)
      = some r := hr
  have hnone : (((GridEngine.new 2 2).addEntity ⟨false, false⟩ 0 0).2).actor (0 + 1) (0 + 0)
      = none := by decide
  rw [hnone] at hr2
  cases hr2

/-- Witness for C7 (amended): with requested set `MapEditorPlugin.js`,
only that available file is loaded; with the empty requested set every
available file is loaded; no store write is issued either way. -/
theorem loadAll_selection_w :
    (loadAll ["IcePlugin.js".toList, "MapEditorPlugin.js".toList]
        ["MapEditorPlugin.js".toList]).loaded
      = List.filter (fun f => ["MapEditorPlugin.js".toList].contains f)
          ["IcePlugin.js".toList, "MapEditorPlugin.js".toList] ∧
    (loadAll ["IcePlugin.js".toList] []).loaded = ["IcePlugin.js".toList] ∧
    (loadAll ["IcePlugin.js".toList] []).storeWrites = [] :=
  ⟨(loadAll_selection ["IcePlugin.js".toList, "MapEditorPlugin.js".toList]
      ["MapEditorPlugin.js".toList]).2.1 (by decide),
   (loadAll_selection ["IcePlugin.js".toList] []).1 rfl,
   (loadAll_selection ["IcePlugin.js".toList] []).2.2⟩
